import Mathlib

/-!
Verification of the seller request validators in
`apps/backend/src/api/vendor/sellers/validators.ts`.

The validators are zod schemas (`VendorCreateSeller`, `VendorUpdateSeller`,
`VendorUpdateReview`).  We embed the relevant zod semantics shallowly:

* JSON-like input values (`JValue`); a record is an association list.
* A parse of one declared field returns a `FieldRes`: a zod parse status
  (`valid` / `dirty` / `aborted`), the normalized output value (`none`
  standing for JavaScript `undefined`, i.e. the key is omitted from the
  normalized record), and the issues it contributed.  As in zod, a failed
  check (length, email) marks the result `dirty` while a type error
  `aborted`s it; object parsing runs every field and concatenates the
  issues (non-fail-fast), a `superRefine` refinement runs unless the inner
  parse aborted, and `safeParse` succeeds exactly when the final status is
  `valid`.
* JavaScript runtime exceptions (a `TypeError` escaping the `trim`
  preprocess, which zod does not catch) are modelled with `Except String`.
* String length is code-point length and `jsTrim` drops the JavaScript
  whitespace characters from both ends; `isEmail` follows the zod email
  regular expression (local part of alphanumerics and `_ + - .` and
  apostrophe not starting with a dot, without a double dot and not ending
  in a dot, then `@`, then dot-separated labels starting alphanumeric and
  a final alphabetic top-level domain of length at least two).
-/

namespace Refashion

/-- JSON-like values, the raw input domain of the validators. -/
inductive JValue where
  | jnull : JValue
  | jstr : String → JValue
  | jnum : Int → JValue
  | jbool : Bool → JValue
  | jobj : List (String × JValue) → JValue

/-- `getField r k` is JavaScript property access `r[k]`:
`none` stands for `undefined` (key absent). -/
def getField (r : List (String × JValue)) (k : String) : Option JValue :=
  match r with
  | [] => none
  | (k2, v) :: rest => if k2 = k then some v else getField rest k

/-- The JavaScript whitespace characters `String.prototype.trim` removes
(restricted to the ones representable in our inputs). -/
def isJsWS (c : Char) : Bool :=
  c = ' ' || c = '\t' || c = '\n' || c = '\r' || c = Char.ofNat 11 || c = Char.ofNat 12

/-- Drop leading and trailing JavaScript whitespace from a character list. -/
def jsTrimList (l : List Char) : List Char :=
  ((l.dropWhile isJsWS).reverse.dropWhile isJsWS).reverse

/-- JavaScript `String.prototype.trim`. -/
def jsTrim (s : String) : String :=
  ⟨jsTrimList s.data⟩

/-- Characters allowed in the local part of a zod email. -/
def isEmailLocalChar (c : Char) : Bool :=
  c.isAlphanum || c = Char.ofNat 39 || c = '_' || c = '+' || c = '-' || c = '.'

/-- Characters allowed as the last character of the local part. -/
def isEmailLocalEnd (c : Char) : Bool :=
  c.isAlphanum || c = '_' || c = '+' || c = '-'

/-- No two consecutive dots. -/
def noDoubleDot : List Char → Bool
  | [] => true
  | [_] => true
  | c1 :: c2 :: rest => ((c1 != '.') || (c2 != '.')) && noDoubleDot (c2 :: rest)

/-- The local part of a zod email: nonempty, allowed characters, does not
start with a dot, no double dot, last character alphanumeric or `_ + -`. -/
def localPartOk (l : List Char) : Bool :=
  !l.isEmpty
  && l.dropLast.all isEmailLocalChar
  && (match l.getLast? with | some c => isEmailLocalEnd c | none => false)
  && (match l.head? with | some c => c != '.' | none => false)
  && noDoubleDot l

/-- Split a character list at every occurrence of `c` (like JavaScript
`split`, keeping empty segments). -/
def splitOnChar (c : Char) : List Char → List (List Char)
  | [] => [[]]
  | a :: t =>
    match splitOnChar c t with
    | [] => if a = c then [[], []] else [[a]]
    | h :: t2 => if a = c then [] :: h :: t2 else (a :: h) :: t2

/-- A domain label: alphanumeric first character, then alphanumerics or hyphens. -/
def labelOk (l : List Char) : Bool :=
  match l with
  | [] => false
  | c :: rest => c.isAlphanum && rest.all (fun d => d.isAlphanum || d = '-')

/-- The final domain segment: at least two alphabetic characters. -/
def tldOk (l : List Char) : Bool :=
  decide (l.length ≥ 2) && l.all Char.isAlpha

/-- The domain of a zod email: at least one dot-terminated label, then a
top-level domain. -/
def domainOk (d : List Char) : Bool :=
  let parts := splitOnChar '.' d
  match parts.getLast? with
  | none => false
  | some tld => decide (parts.length ≥ 2) && parts.dropLast.all labelOk && tldOk tld

/-- The zod `.email()` format check. -/
def isEmail (s : String) : Bool :=
  match splitOnChar '@' s.data with
  | [lp, dp] => localPartOk lp && domainOk dp
  | _ => false

/-- Machine-readable issue kinds (zod issue codes). -/
inductive IssueCode where
  | invalidType : IssueCode
  | invalidEnumValue : IssueCode
  | unrecognizedKeys : IssueCode
  | tooSmall : IssueCode
  | tooBig : IssueCode
  | invalidString : IssueCode
  | custom : IssueCode
deriving Repr, DecidableEq

/-- One structured validation failure: path into the input, kind, message. -/
structure Issue where
  path : List String
  code : IssueCode
  message : String
deriving Repr, DecidableEq

/-- zod parse status: `dirty` lets later phases (other fields, refinements)
still run, `aborted` does not. -/
inductive PStatus where
  | valid : PStatus
  | dirty : PStatus
  | aborted : PStatus
deriving Repr, DecidableEq

/-- Merge two parse statuses (as zod `ParseStatus` merging does). -/
def PStatus.combine : PStatus → PStatus → PStatus
  | .aborted, _ => .aborted
  | _, .aborted => .aborted
  | .dirty, _ => .dirty
  | _, .dirty => .dirty
  | .valid, .valid => .valid

/-- Result of parsing one declared field: status, normalized output value
(`none` = `undefined`, key omitted from the output record), issues. -/
structure FieldRes where
  status : PStatus
  out : Option JValue
  issues : List Issue

/-- zod string checks used by these schemas. -/
inductive StrCheck where
  | minLen : Nat → StrCheck
  | maxLen : Nat → StrCheck
  | email : StrCheck
deriving Repr, DecidableEq

/-- Run one string check, producing its issues (empty when it passes). -/
def runStrCheck (path : List String) (s : String) : StrCheck → List Issue
  | .minLen n =>
      if s.length < n then
        [⟨path, .tooSmall, "String must contain at least " ++ toString n ++ " character(s)"⟩]
      else []
  | .maxLen n =>
      if s.length > n then
        [⟨path, .tooBig, "String must contain at most " ++ toString n ++ " character(s)"⟩]
      else []
  | .email =>
      if isEmail s then [] else [⟨path, .invalidString, "Invalid email"⟩]

/-- `z.string()` with a list of checks: a non-string aborts with an
`invalid_type` issue; a failed check dirties but keeps the value. -/
def zodString (checks : List StrCheck) (path : List String) : Option JValue → FieldRes
  | some (.jstr s) =>
      let issues := (checks.map (runStrCheck path s)).flatten
      ⟨if issues.isEmpty then .valid else .dirty, some (.jstr s), issues⟩
  | some v => ⟨.aborted, some v, [⟨path, .invalidType, "Expected string"⟩]⟩
  | none => ⟨.aborted, none, [⟨path, .invalidType, "Required"⟩]⟩

/-- `z.enum([...])`: membership test on strings, aborting on failure. -/
def zodEnum (values : List String) (path : List String) : Option JValue → FieldRes
  | some (.jstr s) =>
      if values.contains s then ⟨.valid, some (.jstr s), []⟩
      else ⟨.aborted, some (.jstr s), [⟨path, .invalidEnumValue, "Invalid enum value"⟩]⟩
  | some v => ⟨.aborted, some v, [⟨path, .invalidType, "Expected string"⟩]⟩
  | none => ⟨.aborted, none, [⟨path, .invalidType, "Required"⟩]⟩

/-- `.optional()`: `undefined` short-circuits to a valid `undefined`. -/
def zodOptional (inner : Option JValue → FieldRes) : Option JValue → FieldRes
  | none => ⟨.valid, none, []⟩
  | some v => inner (some v)

/-- `.nullable()`: `null` short-circuits to a valid `null`. -/
def zodNullable (inner : Option JValue → FieldRes) : Option JValue → FieldRes
  | some .jnull => ⟨.valid, some .jnull, []⟩
  | v => inner v

/-- Lift an exception-free field schema into the exception-aware parser type. -/
def pureField (q : Option JValue → FieldRes) :
    Option JValue → Except String FieldRes :=
  fun v => .ok (q v)

/-- Parse every declared field of an object, in declaration order, against
the value found in the input record, merging statuses and concatenating
issues (zod object parsing is non-fail-fast across fields). -/
def parseFieldList (input : List (String × JValue)) :
    List (String × (Option JValue → Except String FieldRes)) →
    Except String (PStatus × List (String × JValue) × List Issue)
  | [] => .ok (.valid, [], [])
  | (k, p) :: rest =>
    match p (getField input k) with
    | .error e => .error e
    | .ok fr =>
      match parseFieldList input rest with
      | .error e => .error e
      | .ok (st, out, iss) =>
        .ok (fr.status.combine st,
             (match fr.out with | some v => [(k, v)] | none => []) ++ out,
             fr.issues ++ iss)

/-- The input keys not declared in the schema. -/
def extraKeys (declared : List String) (input : List (String × JValue)) : List String :=
  (input.map Prod.fst).filter (fun k => !(declared.contains k))

/-- Outcome of parsing one object value: status, normalized record, issues. -/
structure ObjRes where
  status : PStatus
  value : List (String × JValue)
  issues : List Issue

/-- Parse a record against an object schema.  With `strict := true`
(`.strict()`), undeclared keys add an `unrecognized_keys` issue (after the
field issues, as zod pushes it after parsing the declared fields) and dirty
the result; with `strict := false` (default `strip`), undeclared keys are
silently dropped from the normalized record. -/
def parseObjectCore (strict : Bool) (path : List String)
    (fields : List (String × (Option JValue → Except String FieldRes)))
    (input : List (String × JValue)) : Except String ObjRes :=
  match parseFieldList input fields with
  | .error e => .error e
  | .ok (st, out, iss) =>
    if strict && !(extraKeys (fields.map Prod.fst) input).isEmpty then
      .ok ⟨if st = .aborted then .aborted else .dirty, out,
           iss ++ [⟨path, .unrecognizedKeys, "Unrecognized keys in object"⟩]⟩
    else
      .ok ⟨st, out, iss⟩

/-- An object schema used as a field value (the nested `member` object):
non-objects and `undefined` abort with `invalid_type`. -/
def zodObject (strict : Bool) (path : List String)
    (fields : List (String × (Option JValue → Except String FieldRes))) :
    Option JValue → Except String FieldRes
  | some (.jobj r) =>
      match parseObjectCore strict path fields r with
      | .error e => .error e
      | .ok o =>
        .ok ⟨o.status, if o.status = .aborted then none else some (.jobj o.value), o.issues⟩
  | some v => .ok ⟨.aborted, some v, [⟨path, .invalidType, "Expected object"⟩]⟩
  | none => .ok ⟨.aborted, none, [⟨path, .invalidType, "Required"⟩]⟩

/-- The create-schema preprocess `(val) => val?.trim()` under JavaScript
semantics: `undefined` and `null` short-circuit to `undefined`; a string is
trimmed; any other value throws a `TypeError` (numbers have no `trim`
method), which zod does not catch. -/
def optionalChainTrim : Option JValue → Except String (Option JValue)
  | none => .ok none
  | some .jnull => .ok none
  | some (.jstr s) => .ok (some (.jstr (jsTrim s)))
  | some _ => .error "TypeError: val.trim is not a function"

/-- The update-schema preprocess `(val) => val.trim()`: without optional
chaining, `null` and `undefined` also throw. -/
def plainTrim : Option JValue → Except String (Option JValue)
  | some (.jstr s) => .ok (some (.jstr (jsTrim s)))
  | some .jnull => .error "TypeError: null has no trim method"
  | none => .error "TypeError: undefined has no trim method"
  | some _ => .error "TypeError: val.trim is not a function"

/-- `name: z.preprocess((val) => val?.trim(), z.string().min(1))`. -/
def createNameField (v : Option JValue) : Except String FieldRes :=
  match optionalChainTrim v with
  | .error e => .error e
  | .ok w => .ok (zodString [.minLen 1] ["name"] w)

/-- `name: z.preprocess((val) => val.trim(), z.string().min(4)).optional()`:
the outer `.optional()` skips the preprocess only for `undefined`. -/
def updateNameField (v : Option JValue) : Except String FieldRes :=
  match v with
  | none => .ok ⟨.valid, none, []⟩
  | some w =>
      match plainTrim (some w) with
      | .error e => .error e
      | .ok u => .ok (zodString [.minLen 4] ["name"] u)

/-- `z.string().nullish().optional()` at a given path. -/
def nullishOptionalString (key : String) : Option JValue → FieldRes :=
  zodOptional (zodOptional (zodNullable (zodString [] [key])))

/-- `z.string().nullish().optional()` for the nested member fields. -/
def memberNullishOptionalString (key : String) : Option JValue → FieldRes :=
  zodOptional (zodOptional (zodNullable (zodString [] ["member", key])))

/-- `z.string().optional().nullable()` at a given path. -/
def optionalNullableString (key : String) : Option JValue → FieldRes :=
  zodNullable (zodOptional (zodString [] [key]))

/-- `z.string().optional()` at a given path (update schema fields). -/
def optionalString (key : String) : Option JValue → FieldRes :=
  zodOptional (zodString [] [key])

/-- The nested `member` object schema of `VendorCreateSeller`
(default unknown-key handling, i.e. strip). -/
def memberFields : List (String × (Option JValue → Except String FieldRes)) :=
  [("name", pureField (zodString [] ["member", "name"])),
   ("email", pureField (zodString [.email] ["member", "email"])),
   ("bio", pureField (memberNullishOptionalString "bio")),
   ("phone", pureField (memberNullishOptionalString "phone")),
   ("photo", pureField (memberNullishOptionalString "photo"))]

/-- The declared fields of `VendorCreateSeller`, in source order. -/
def createSellerFields : List (String × (Option JValue → Except String FieldRes)) :=
  [("registration_type", pureField (zodEnum ["individual", "business"] ["registration_type"])),
   ("name", createNameField),
   ("description", pureField (nullishOptionalString "description")),
   ("photo", pureField (nullishOptionalString "photo")),
   ("email", pureField (zodOptional (zodNullable (zodString [.email] ["email"])))),
   ("phone", pureField (nullishOptionalString "phone")),
   ("address_line", pureField (nullishOptionalString "address_line")),
   ("city", pureField (nullishOptionalString "city")),
   ("state", pureField (nullishOptionalString "state")),
   ("postal_code", pureField (nullishOptionalString "postal_code")),
   ("country_code", pureField (nullishOptionalString "country_code")),
   ("tax_id", pureField (nullishOptionalString "tax_id")),
   ("company_name", pureField (optionalNullableString "company_name")),
   ("vat_number", pureField (optionalNullableString "vat_number")),
   ("tax_office", pureField (optionalNullableString "tax_office")),
   ("member", zodObject false ["member"] memberFields)]

/-- The issue the create-seller refinement adds for a missing company name. -/
def companyNameIssue : Issue :=
  ⟨["company_name"], .custom, "Company name is required for business registration"⟩

/-- The issue the create-seller refinement adds for a missing VAT number. -/
def vatNumberIssue : Issue :=
  ⟨["vat_number"], .custom, "VAT number is required for business registration"⟩

/-- The issue the create-seller refinement adds for a missing tax office. -/
def taxOfficeIssue : Issue :=
  ⟨["tax_office"], .custom, "Tax office is required for business registration"⟩

/-- JavaScript truthiness of a record field, as used by `!data.company_name`. -/
def jsTruthy : Option JValue → Bool
  | none => false
  | some .jnull => false
  | some (.jstr s) => s != ""
  | some (.jnum n) => n != 0
  | some (.jbool b) => b
  | some (.jobj _) => true

/-- JavaScript strict equality `data.registration_type === "business"`. -/
def isBusinessReg (data : List (String × JValue)) : Bool :=
  match getField data "registration_type" with
  | some (.jstr s) => s == "business"
  | _ => false

/-- The `superRefine` body of `VendorCreateSeller`: when
`registration_type === "business"`, each falsy dependent field adds its own
custom issue (all three are checked, in source order). -/
def createSellerRefine (data : List (String × JValue)) : List Issue :=
  if isBusinessReg data then
    (if jsTruthy (getField data "company_name") then [] else [companyNameIssue]) ++
    (if jsTruthy (getField data "vat_number") then [] else [vatNumberIssue]) ++
    (if jsTruthy (getField data "tax_office") then [] else [taxOfficeIssue])
  else []

/-- A zod `safeParse` outcome: a normalized record or the issue list. -/
inductive ZodResult where
  | success : List (String × JValue) → ZodResult
  | failure : List Issue → ZodResult

/-- `VendorCreateSeller.safeParse`: strict object parse, then the
`superRefine` refinement, which zod runs unless the object parse aborted;
the parse succeeds exactly when no phase produced an issue.  An `.error`
value models a JavaScript exception escaping the validator. -/
def VendorCreateSeller (input : JValue) : Except String ZodResult :=
  match input with
  | .jobj r =>
      match parseObjectCore true [] createSellerFields r with
      | .error e => .error e
      | .ok o =>
        if o.status = .aborted then .ok (.failure o.issues)
        else if o.status = .valid ∧ createSellerRefine o.value = [] then
          .ok (.success o.value)
        else .ok (.failure (o.issues ++ createSellerRefine o.value))
  | _ => .ok (.failure [⟨[], .invalidType, "Expected object"⟩])

/-- The declared fields of `VendorUpdateSeller`, in source order. -/
def updateSellerFields : List (String × (Option JValue → Except String FieldRes)) :=
  [("registration_type", pureField (zodOptional (zodEnum ["individual", "business"] ["registration_type"]))),
   ("name", updateNameField),
   ("description", pureField (optionalString "description")),
   ("photo", pureField (optionalString "photo")),
   ("email", pureField (zodOptional (zodString [.email] ["email"]))),
   ("phone", pureField (optionalString "phone")),
   ("address_line", pureField (optionalString "address_line")),
   ("city", pureField (optionalString "city")),
   ("state", pureField (optionalString "state")),
   ("postal_code", pureField (optionalString "postal_code")),
   ("country_code", pureField (optionalString "country_code")),
   ("tax_id", pureField (optionalString "tax_id")),
   ("company_name", pureField (optionalNullableString "company_name")),
   ("vat_number", pureField (optionalNullableString "vat_number")),
   ("tax_office", pureField (optionalNullableString "tax_office"))]

/-- `VendorUpdateSeller.safeParse`: strict object parse, no refinement. -/
def VendorUpdateSeller (input : JValue) : Except String ZodResult :=
  match input with
  | .jobj r =>
      match parseObjectCore true [] updateSellerFields r with
      | .error e => .error e
      | .ok o => .ok (if o.status = .valid then .success o.value else .failure o.issues)
  | _ => .ok (.failure [⟨[], .invalidType, "Expected object"⟩])

/-- The declared fields of `VendorUpdateReview`. -/
def updateReviewFields : List (String × (Option JValue → Except String FieldRes)) :=
  [("seller_note", pureField (zodString [.maxLen 300] ["seller_note"]))]

/-- `VendorUpdateReview.safeParse`: a plain (non-strict) object schema. -/
def VendorUpdateReview (input : JValue) : Except String ZodResult :=
  match input with
  | .jobj r =>
      match parseObjectCore false [] updateReviewFields r with
      | .error e => .error e
      | .ok o => .ok (if o.status = .valid then .success o.value else .failure o.issues)
  | _ => .ok (.failure [⟨[], .invalidType, "Expected object"⟩])

/-- Look up the declared schema entry for a field name. -/
def schemaField (fields : List (String × (Option JValue → Except String FieldRes)))
    (k : String) : Option (Option JValue → Except String FieldRes) :=
  match fields.find? (fun kp => kp.1 == k) with
  | some kp => some kp.2
  | none => none

/-- A field schema accepts a present `null` when it validly normalizes it
to `null` with no issue. -/
def acceptsNull (p : Option JValue → Except String FieldRes) : Prop :=
  p (some .jnull) = .ok ⟨.valid, some .jnull, []⟩

/-- A field parser is idempotent when a valid parse yields no issues and its
normalized output re-parses to itself. -/
def FieldIdem (p : Option JValue → Except String FieldRes) : Prop :=
  ∀ v fr, p v = .ok fr → fr.status = .valid →
    fr.issues = [] ∧ p fr.out = .ok ⟨.valid, fr.out, []⟩

/-- `FieldIdem` for exception-free field schemas. -/
def PFieldIdem (q : Option JValue → FieldRes) : Prop :=
  ∀ v, (q v).status = .valid →
    (q v).issues = [] ∧ q ((q v).out) = ⟨.valid, (q v).out, []⟩

/-! ### Basic lemmas: trimming, statuses, record lookup -/

theorem dropWhile_head_false {α : Type} (p : α → Bool) :
    ∀ (l : List α) (a : α) (t : List α), l.dropWhile p = a :: t → p a = false := by
  intro l
  induction l with
  | nil => intro a t h; simp [List.dropWhile] at h
  | cons b l ih =>
    intro a t h
    rw [List.dropWhile_cons] at h
    by_cases hb : p b
    · rw [if_pos hb] at h; exact ih a t h
    · rw [if_neg hb] at h
      cases h
      simpa using hb

theorem dropWhile_idem {α : Type} (p : α → Bool) (l : List α) :
    (l.dropWhile p).dropWhile p = l.dropWhile p := by
  cases h : l.dropWhile p with
  | nil => rfl
  | cons a t =>
    have ha := dropWhile_head_false p l a t h
    rw [List.dropWhile_cons, if_neg (by simp [ha])]

theorem prefix_head_eq {α : Type} {l1 l2 : List α} {a : α} {t : List α}
    (hp : l1 <+: l2) (h : l1 = a :: t) : ∃ t2, l2 = a :: t2 := by
  obtain ⟨r, hr⟩ := hp
  subst h
  exact ⟨t ++ r, by rw [← hr]; rfl⟩

theorem jsTrimList_idem (l : List Char) : jsTrimList (jsTrimList l) = jsTrimList l := by
  unfold jsTrimList
  have h1 : ((l.dropWhile isJsWS).reverse.dropWhile isJsWS).reverse.dropWhile isJsWS
      = ((l.dropWhile isJsWS).reverse.dropWhile isJsWS).reverse := by
    cases hbr : ((l.dropWhile isJsWS).reverse.dropWhile isJsWS).reverse with
    | nil => rfl
    | cons a t =>
      have hpre : ((l.dropWhile isJsWS).reverse.dropWhile isJsWS).reverse
          <+: l.dropWhile isJsWS := by
        have hsuf : (l.dropWhile isJsWS).reverse.dropWhile isJsWS
            <:+ (l.dropWhile isJsWS).reverse := List.dropWhile_suffix _
        have h2 := List.reverse_prefix.mpr hsuf
        rwa [List.reverse_reverse] at h2
      obtain ⟨t2, h2⟩ := prefix_head_eq hpre hbr
      have ha := dropWhile_head_false isJsWS l a t2 h2
      rw [List.dropWhile_cons, if_neg (by simp [ha])]
  rw [h1, List.reverse_reverse, dropWhile_idem]

/-- Trimming is idempotent: the update and re-validation of an already
trimmed string leaves it unchanged. -/
theorem jsTrim_idem (s : String) : jsTrim (jsTrim s) = jsTrim s :=
  congrArg String.mk (jsTrimList_idem s.data)

/-- A string all of whose characters are JavaScript whitespace trims to the
empty string. -/
theorem jsTrim_eq_empty {s : String} (h : ∀ c ∈ s.data, isJsWS c = true) :
    jsTrim s = "" := by
  have h1 : s.data.dropWhile isJsWS = [] :=
    List.dropWhile_eq_nil_iff.mpr (fun x hx => h x hx)
  unfold jsTrim jsTrimList
  rw [h1]
  rfl

theorem PStatus.combine_eq_valid {a b : PStatus} :
    a.combine b = .valid ↔ a = .valid ∧ b = .valid := by
  cases a <;> cases b <;> simp [PStatus.combine]

theorem getField_eq_none {r : List (String × JValue)} {k : String}
    (h : k ∉ r.map Prod.fst) : getField r k = none := by
  induction r with
  | nil => rfl
  | cons p t ih =>
    obtain ⟨k2, v⟩ := p
    simp only [List.map_cons, List.mem_cons] at h
    push_neg at h
    rw [getField, if_neg (fun hk => h.1 hk.symm)]
    exact ih h.2

theorem getField_append (a b : List (String × JValue)) (k : String) :
    getField (a ++ b) k =
      match getField a k with
      | some v => some v
      | none => getField b k := by
  induction a with
  | nil => simp [getField]
  | cons p t ih =>
    obtain ⟨k2, v⟩ := p
    by_cases h : k2 = k
    · simp [getField, h]
    · simpa [getField, h] using ih

/-! ### Structural lemmas about object parsing -/

theorem parseFieldList_keys
    (fields : List (String × (Option JValue → Except String FieldRes))) :
    ∀ (r : List (String × JValue)) (st : PStatus) (out : List (String × JValue))
      (iss : List Issue),
      parseFieldList r fields = .ok (st, out, iss) →
      ∀ k ∈ out.map Prod.fst, k ∈ fields.map Prod.fst := by
  induction fields with
  | nil =>
    intro r st out iss h k hk
    simp only [parseFieldList] at h
    cases h
    simp at hk
  | cons kp0 rest ih =>
    obtain ⟨k0, p0⟩ := kp0
    intro r st out iss h k hk
    simp only [parseFieldList] at h
    split at h
    · cases h
    · split at h
      · cases h
      · rename_i x1 fr heq x2 st' out' iss' heq2
        cases h
        simp only [List.map_append, List.mem_append] at hk
        rcases hk with hk | hk
        · cases hfr : fr.out with
          | none => rw [hfr] at hk; simp at hk
          | some v =>
            rw [hfr] at hk
            simp at hk
            subst hk
            simp
        · have h3 := ih r st' out' iss' heq2 k hk
          simp [h3]

theorem parseFieldList_spec
    (fields : List (String × (Option JValue → Except String FieldRes)))
    (hnd : (fields.map Prod.fst).Nodup) :
    ∀ (r : List (String × JValue)) (st : PStatus) (out : List (String × JValue))
      (iss : List Issue),
      parseFieldList r fields = .ok (st, out, iss) →
      ∀ kp ∈ fields, ∃ fr, kp.2 (getField r kp.1) = .ok fr ∧
        getField out kp.1 = fr.out ∧
        (∀ i ∈ fr.issues, i ∈ iss) ∧
        (st = .valid → fr.status = .valid) := by
  induction fields with
  | nil => intro r st out iss h kp hkp; simp at hkp
  | cons kp0 rest ih =>
    obtain ⟨k0, p0⟩ := kp0
    have hnd2 := List.nodup_cons.mp hnd
    intro r st out iss h kp hkp
    simp only [parseFieldList] at h
    split at h
    · cases h
    · split at h
      · cases h
      · rename_i x1 fr heq x2 st' out' iss' heq2
        cases h
        rcases List.mem_cons.mp hkp with hkp | hkp
        · subst hkp
          refine ⟨fr, heq, ?_, ?_, ?_⟩
          · cases hfr : fr.out with
            | none =>
              have hsub : k0 ∉ out'.map Prod.fst := fun hmem =>
                hnd2.1 (parseFieldList_keys rest r st' out' iss' heq2 k0 hmem)
              simpa using getField_eq_none hsub
            | some v => simp [getField]
          · intro i hi
            simp [hi]
          · intro hv
            exact (PStatus.combine_eq_valid.mp hv).1
        · obtain ⟨fr2, h1, h2, h3, h4⟩ := ih hnd2.2 r st' out' iss' heq2 kp hkp
          have hkne : k0 ≠ kp.1 := by
            intro hcon
            exact hnd2.1 (hcon ▸ List.mem_map.mpr ⟨kp, hkp, rfl⟩)
          refine ⟨fr2, h1, ?_, ?_, ?_⟩
          · cases hfr : fr.out with
            | none => simpa using h2
            | some v => simpa [getField, hkne] using h2
          · intro i hi
            simp [h3 i hi]
          · intro hv
            exact h4 (PStatus.combine_eq_valid.mp hv).2

theorem parseFieldList_congr
    (fields : List (String × (Option JValue → Except String FieldRes))) :
    ∀ (r r' : List (String × JValue)),
      (∀ k ∈ fields.map Prod.fst, getField r k = getField r' k) →
      parseFieldList r fields = parseFieldList r' fields := by
  induction fields with
  | nil => intro r r' _; rfl
  | cons kp0 rest ih =>
    obtain ⟨k0, p0⟩ := kp0
    intro r r' h
    have h0 : getField r k0 = getField r' k0 := h k0 (by simp)
    have hrest : ∀ k ∈ rest.map Prod.fst, getField r k = getField r' k :=
      fun k hk => h k (by simp [hk])
    simp only [parseFieldList, h0, ih r r' hrest]

/-! ### Idempotence of field schemas on their own normalized output -/

theorem FieldIdem_pure {q : Option JValue → FieldRes} (h : PFieldIdem q) :
    FieldIdem (pureField q) := by
  intro v fr hok hst
  have h2 : q v = fr := by injection hok
  subst h2
  obtain ⟨h3, h4⟩ := h v hst
  exact ⟨h3, by simp only [pureField, h4]⟩

theorem PFieldIdem_zodString (checks : List StrCheck) (path : List String) :
    PFieldIdem (zodString checks path) := by
  intro v hst
  match v with
  | some (.jstr s) =>
    by_cases hi : ((checks.map (runStrCheck path s)).flatten).isEmpty
    · have hi2 : (checks.map (runStrCheck path s)).flatten = [] :=
        List.isEmpty_iff.mp hi
      constructor
      · simp [zodString, hi2]
      · simp [zodString, hi2]
    · simp [zodString, hi] at hst
  | some .jnull => simp [zodString] at hst
  | some (.jnum n) => simp [zodString] at hst
  | some (.jbool b) => simp [zodString] at hst
  | some (.jobj o) => simp [zodString] at hst
  | none => simp [zodString] at hst

theorem PFieldIdem_zodEnum (values : List String) (path : List String) :
    PFieldIdem (zodEnum values path) := by
  intro v hst
  match v with
  | some (.jstr s) =>
    by_cases hc : s ∈ values
    · constructor
      · simp [zodEnum, hc]
      · simp [zodEnum, hc]
    · simp [zodEnum, hc] at hst
  | some .jnull => simp [zodEnum] at hst
  | some (.jnum n) => simp [zodEnum] at hst
  | some (.jbool b) => simp [zodEnum] at hst
  | some (.jobj o) => simp [zodEnum] at hst
  | none => simp [zodEnum] at hst

theorem PFieldIdem_optional {q : Option JValue → FieldRes} (h : PFieldIdem q) :
    PFieldIdem (zodOptional q) := by
  intro v hst
  match v with
  | none => exact ⟨rfl, rfl⟩
  | some w =>
    have he : zodOptional q (some w) = q (some w) := rfl
    rw [he] at hst ⊢
    obtain ⟨h1, h2⟩ := h (some w) hst
    refine ⟨h1, ?_⟩
    cases ho : (q (some w)).out with
    | none => rfl
    | some u =>
      rw [ho] at h2
      have he2 : zodOptional q (some u) = q (some u) := rfl
      rw [he2, h2]

theorem PFieldIdem_nullable {q : Option JValue → FieldRes} (h : PFieldIdem q) :
    PFieldIdem (zodNullable q) := by
  have key : ∀ v, zodNullable q v = q v ∨
      (zodNullable q v = ⟨.valid, some .jnull, []⟩ ∧ v = some .jnull) := by
    intro v
    match v with
    | some .jnull => exact .inr ⟨rfl, rfl⟩
    | none => exact .inl rfl
    | some (.jstr s) => exact .inl rfl
    | some (.jnum n) => exact .inl rfl
    | some (.jbool b) => exact .inl rfl
    | some (.jobj o) => exact .inl rfl
  intro v hst
  rcases key v with hv | ⟨hv, _⟩
  · rw [hv] at hst ⊢
    obtain ⟨h1, h2⟩ := h v hst
    refine ⟨h1, ?_⟩
    rcases key ((q v).out) with ho | ⟨ho, ho2⟩
    · rw [ho]; exact h2
    · rw [ho, ho2]
  · rw [hv]
    exact ⟨rfl, rfl⟩

theorem parseFieldList_idem
    (fields : List (String × (Option JValue → Except String FieldRes)))
    (hnd : (fields.map Prod.fst).Nodup)
    (hok : ∀ kp ∈ fields, FieldIdem kp.2) :
    ∀ (r out : List (String × JValue)) (iss : List Issue),
      parseFieldList r fields = .ok (.valid, out, iss) →
      iss = [] ∧ parseFieldList out fields = .ok (.valid, out, []) := by
  induction fields with
  | nil =>
    intro r out iss h
    simp only [parseFieldList] at h
    cases h
    exact ⟨rfl, rfl⟩
  | cons kp0 rest ih =>
    obtain ⟨k0, p0⟩ := kp0
    have hnd2 := List.nodup_cons.mp hnd
    intro r out iss h
    simp only [parseFieldList] at h
    split at h
    · cases h
    · split at h
      · cases h
      · rename_i x1 fr heq x2 st' out' iss' heq2
        injection h with h
        simp only [Prod.mk.injEq] at h
        obtain ⟨hst, hout, hiss⟩ := h
        obtain ⟨hfv, hsv⟩ := PStatus.combine_eq_valid.mp hst
        subst hsv
        obtain ⟨hids, hidem0⟩ :=
          hok (k0, p0) (List.mem_cons_self _ _) (getField r k0) fr heq hfv
        have hidem : p0 fr.out = .ok ⟨.valid, fr.out, []⟩ := hidem0
        obtain ⟨hiss', hrec⟩ :=
          ih hnd2.2 (fun kp hkp => hok kp (List.mem_cons_of_mem _ hkp)) r out' iss' heq2
        refine ⟨by rw [← hiss, hids, hiss']; rfl, ?_⟩
        have hgf : getField out k0 = fr.out := by
          rw [← hout]
          cases hfr : fr.out with
          | none =>
            have hsub : k0 ∉ out'.map Prod.fst := fun hmem =>
              hnd2.1 (parseFieldList_keys rest r .valid out' iss' heq2 k0 hmem)
            simpa using getField_eq_none hsub
          | some v => simp [getField]
        have hcongr : parseFieldList out rest = parseFieldList out' rest := by
          apply parseFieldList_congr
          intro k hk
          rw [← hout]
          have hkne : k0 ≠ k := fun hcon => hnd2.1 (hcon ▸ hk)
          cases hfr : fr.out with
          | none => simp
          | some v => simp [getField, hkne]
        simp only [parseFieldList, hgf, hidem, hcongr, hrec, PStatus.combine,
          List.append_nil, List.nil_append]
        rw [← hout]

theorem FieldIdem_createNameField : FieldIdem createNameField := by
  intro v fr hok hst
  match v with
  | none =>
    have h2 : createNameField none = .ok (zodString [.minLen 1] ["name"] none) := rfl
    rw [h2] at hok
    injection hok with hfr
    rw [← hfr] at hst
    simp [zodString] at hst
  | some .jnull =>
    have h2 : createNameField (some .jnull) = .ok (zodString [.minLen 1] ["name"] none) := rfl
    rw [h2] at hok
    injection hok with hfr
    rw [← hfr] at hst
    simp [zodString] at hst
  | some (.jnum n) => simp [createNameField, optionalChainTrim] at hok
  | some (.jbool b) => simp [createNameField, optionalChainTrim] at hok
  | some (.jobj o) => simp [createNameField, optionalChainTrim] at hok
  | some (.jstr s) =>
    have h2 : createNameField (some (.jstr s)) =
        .ok (zodString [.minLen 1] ["name"] (some (.jstr (jsTrim s)))) := rfl
    rw [h2] at hok
    injection hok with hfr
    by_cases hl : (jsTrim s).length < 1
    · rw [← hfr] at hst
      simp [zodString, runStrCheck, hl] at hst
    · have hfr2 : fr = ⟨.valid, some (.jstr (jsTrim s)), []⟩ := by
        rw [← hfr]
        simp [zodString, runStrCheck, hl]
      subst hfr2
      refine ⟨rfl, ?_⟩
      have h3 : createNameField (some (.jstr (jsTrim s))) =
          .ok (zodString [.minLen 1] ["name"] (some (.jstr (jsTrim (jsTrim s))))) := rfl
      rw [h3, jsTrim_idem]
      simp [zodString, runStrCheck, hl]

theorem memberFields_nodup : (memberFields.map Prod.fst).Nodup := by decide

theorem memberFields_idem : ∀ kp ∈ memberFields, FieldIdem kp.2 := by
  intro kp hkp
  fin_cases hkp
  · exact FieldIdem_pure (PFieldIdem_zodString _ _)
  · exact FieldIdem_pure (PFieldIdem_zodString _ _)
  · exact FieldIdem_pure
      (PFieldIdem_optional (PFieldIdem_optional (PFieldIdem_nullable (PFieldIdem_zodString _ _))))
  · exact FieldIdem_pure
      (PFieldIdem_optional (PFieldIdem_optional (PFieldIdem_nullable (PFieldIdem_zodString _ _))))
  · exact FieldIdem_pure
      (PFieldIdem_optional (PFieldIdem_optional (PFieldIdem_nullable (PFieldIdem_zodString _ _))))

theorem FieldIdem_member : FieldIdem (zodObject false ["member"] memberFields) := by
  intro v fr hok hst
  match v with
  | none =>
    have h2 : zodObject false ["member"] memberFields none =
        .ok ⟨.aborted, none, [⟨["member"], .invalidType, "Required"⟩]⟩ := rfl
    rw [h2] at hok
    injection hok with hfr
    rw [← hfr] at hst
    simp at hst
  | some .jnull =>
    have h2 : zodObject false ["member"] memberFields (some .jnull) =
        .ok ⟨.aborted, some .jnull, [⟨["member"], .invalidType, "Expected object"⟩]⟩ := rfl
    rw [h2] at hok
    injection hok with hfr
    rw [← hfr] at hst
    simp at hst
  | some (.jstr s) =>
    have h2 : zodObject false ["member"] memberFields (some (.jstr s)) =
        .ok ⟨.aborted, some (.jstr s), [⟨["member"], .invalidType, "Expected object"⟩]⟩ := rfl
    rw [h2] at hok
    injection hok with hfr
    rw [← hfr] at hst
    simp at hst
  | some (.jnum n) =>
    have h2 : zodObject false ["member"] memberFields (some (.jnum n)) =
        .ok ⟨.aborted, some (.jnum n), [⟨["member"], .invalidType, "Expected object"⟩]⟩ := rfl
    rw [h2] at hok
    injection hok with hfr
    rw [← hfr] at hst
    simp at hst
  | some (.jbool b) =>
    have h2 : zodObject false ["member"] memberFields (some (.jbool b)) =
        .ok ⟨.aborted, some (.jbool b), [⟨["member"], .invalidType, "Expected object"⟩]⟩ := rfl
    rw [h2] at hok
    injection hok with hfr
    rw [← hfr] at hst
    simp at hst
  | some (.jobj m) =>
    cases hpl : parseFieldList m memberFields with
    | error e => simp [zodObject, parseObjectCore, hpl] at hok
    | ok res =>
      obtain ⟨st, out, iss⟩ := res
      have hzo : zodObject false ["member"] memberFields (some (.jobj m)) =
          .ok ⟨st, if st = .aborted then none else some (.jobj out), iss⟩ := by
        simp [zodObject, parseObjectCore, hpl]
      rw [hzo] at hok
      injection hok with hfr
      have hstv : st = .valid := by rw [← hfr] at hst; exact hst
      subst hstv
      obtain ⟨hiss, hrec⟩ :=
        parseFieldList_idem memberFields memberFields_nodup memberFields_idem m out iss hpl
      subst hiss
      rw [← hfr]
      refine ⟨rfl, ?_⟩
      simp [zodObject, parseObjectCore, hrec]

theorem createSellerFields_nodup : (createSellerFields.map Prod.fst).Nodup := by decide

theorem createSellerFields_idem : ∀ kp ∈ createSellerFields, FieldIdem kp.2 := by
  intro kp hkp
  fin_cases hkp
  · exact FieldIdem_pure (PFieldIdem_zodEnum _ _)
  · exact FieldIdem_createNameField
  · exact FieldIdem_pure
      (PFieldIdem_optional (PFieldIdem_optional (PFieldIdem_nullable (PFieldIdem_zodString _ _))))
  · exact FieldIdem_pure
      (PFieldIdem_optional (PFieldIdem_optional (PFieldIdem_nullable (PFieldIdem_zodString _ _))))
  · exact FieldIdem_pure
      (PFieldIdem_optional (PFieldIdem_nullable (PFieldIdem_zodString _ _)))
  · exact FieldIdem_pure
      (PFieldIdem_optional (PFieldIdem_optional (PFieldIdem_nullable (PFieldIdem_zodString _ _))))
  · exact FieldIdem_pure
      (PFieldIdem_optional (PFieldIdem_optional (PFieldIdem_nullable (PFieldIdem_zodString _ _))))
  · exact FieldIdem_pure
      (PFieldIdem_optional (PFieldIdem_optional (PFieldIdem_nullable (PFieldIdem_zodString _ _))))
  · exact FieldIdem_pure
      (PFieldIdem_optional (PFieldIdem_optional (PFieldIdem_nullable (PFieldIdem_zodString _ _))))
  · exact FieldIdem_pure
      (PFieldIdem_optional (PFieldIdem_optional (PFieldIdem_nullable (PFieldIdem_zodString _ _))))
  · exact FieldIdem_pure
      (PFieldIdem_optional (PFieldIdem_optional (PFieldIdem_nullable (PFieldIdem_zodString _ _))))
  · exact FieldIdem_pure
      (PFieldIdem_optional (PFieldIdem_optional (PFieldIdem_nullable (PFieldIdem_zodString _ _))))
  · exact FieldIdem_pure
      (PFieldIdem_nullable (PFieldIdem_optional (PFieldIdem_zodString _ _)))
  · exact FieldIdem_pure
      (PFieldIdem_nullable (PFieldIdem_optional (PFieldIdem_zodString _ _)))
  · exact FieldIdem_pure
      (PFieldIdem_nullable (PFieldIdem_optional (PFieldIdem_zodString _ _)))
  · exact FieldIdem_member

/-! ### Claim theorems -/

/-- C8: validation is idempotent on its own output.  Whenever
`VendorCreateSeller` succeeds on some input with normalized record `rec`,
validating `rec` itself succeeds again and returns the same record. -/
theorem VendorCreateSeller_idempotent (input : JValue) (rec : List (String × JValue))
    (h : VendorCreateSeller input = .ok (.success rec)) :
    VendorCreateSeller (.jobj rec) = .ok (.success rec) := by
  match input with
  | .jnull => simp [VendorCreateSeller] at h
  | .jstr s => simp [VendorCreateSeller] at h
  | .jnum n => simp [VendorCreateSeller] at h
  | .jbool b => simp [VendorCreateSeller] at h
  | .jobj r =>
    simp only [VendorCreateSeller] at h
    split at h
    · cases h
    · rename_i x o hpo
      cases hpl : parseFieldList r createSellerFields with
      | error e => simp only [parseObjectCore, hpl] at hpo; cases hpo
      | ok res =>
        obtain ⟨st, out, iss⟩ := res
        by_cases hex : (extraKeys (createSellerFields.map Prod.fst) r).isEmpty
        · have hpo2 : o = ⟨st, out, iss⟩ := by
            simp only [parseObjectCore, hpl, hex] at hpo
            simp at hpo
            exact hpo.symm
          subst hpo2
          cases st with
          | valid =>
            by_cases hri : createSellerRefine out = []
            · simp [hri] at h
              subst h
              obtain ⟨hiss0, hrec⟩ := parseFieldList_idem createSellerFields
                createSellerFields_nodup createSellerFields_idem r out iss hpl
              have hkeys := parseFieldList_keys createSellerFields r .valid out iss hpl
              have hex2 : extraKeys (createSellerFields.map Prod.fst) out = [] := by
                simp only [extraKeys]
                rw [List.filter_eq_nil_iff]
                intro k hk
                simp [hkeys k hk]
              simp [VendorCreateSeller, parseObjectCore, hrec, hex2, hri]
            · simp [hri] at h
          | dirty => simp at h
          | aborted => simp at h
        · have hpo2 : o = ⟨if st = .aborted then .aborted else .dirty, out,
              iss ++ [⟨[], .unrecognizedKeys, "Unrecognized keys in object"⟩]⟩ := by
            simp only [parseObjectCore, hpl, hex] at hpo
            simp at hpo
            exact hpo.symm
          subst hpo2
          cases st <;> simp at h

/-- C8 witness: a concrete input on which `VendorCreateSeller` succeeds,
instantiating the idempotence theorem. -/
theorem VendorCreateSeller_idempotent_witness :
    VendorCreateSeller (.jobj [("registration_type", .jstr "individual"),
        ("name", .jstr "  Acme  "),
        ("member", .jobj [("name", .jstr "Jo"), ("email", .jstr "jo@example.com")])]) =
      .ok (.success [("registration_type", .jstr "individual"), ("name", .jstr "Acme"),
        ("member", .jobj [("name", .jstr "Jo"), ("email", .jstr "jo@example.com")])]) ∧
    VendorCreateSeller (.jobj [("registration_type", .jstr "individual"),
        ("name", .jstr "Acme"),
        ("member", .jobj [("name", .jstr "Jo"), ("email", .jstr "jo@example.com")])]) =
      .ok (.success [("registration_type", .jstr "individual"), ("name", .jstr "Acme"),
        ("member", .jobj [("name", .jstr "Jo"), ("email", .jstr "jo@example.com")])]) :=
  ⟨rfl, VendorCreateSeller_idempotent
    (.jobj [("registration_type", .jstr "individual"), ("name", .jstr "  Acme  "),
      ("member", .jobj [("name", .jstr "Jo"), ("email", .jstr "jo@example.com")])])
    _ rfl⟩

/-- C1: the spec asserts that the validators never let an exception escape,
for any raw input record; but the `trim` preprocess raises a JavaScript
`TypeError`, which zod does not catch, when `VendorCreateSeller` receives a
non-string non-nullish `name` (the optional chain in `val?.trim()` only
guards `null`/`undefined`), and when `VendorUpdateSeller` receives a `null`
`name` (no optional chain at all). -/
theorem trim_preprocess_raises :
    VendorCreateSeller (.jobj [("name", .jnum 5)]) =
      .error "TypeError: val.trim is not a function" ∧
    VendorUpdateSeller (.jobj [("name", .jnull)]) =
      .error "TypeError: null has no trim method" :=
  ⟨rfl, rfl⟩

/-- Successful `VendorCreateSeller` runs come from an object input whose
field-level parse is fully valid with the normalized record. -/
theorem VendorCreateSeller_success_inv (input : JValue) (rec : List (String × JValue))
    (h : VendorCreateSeller input = .ok (.success rec)) :
    ∃ r iss, input = .jobj r ∧
      parseFieldList r createSellerFields = .ok (.valid, rec, iss) := by
  match input with
  | .jnull => simp [VendorCreateSeller] at h
  | .jstr s => simp [VendorCreateSeller] at h
  | .jnum n => simp [VendorCreateSeller] at h
  | .jbool b => simp [VendorCreateSeller] at h
  | .jobj r =>
    simp only [VendorCreateSeller] at h
    split at h
    · cases h
    · rename_i x o hpo
      cases hpl : parseFieldList r createSellerFields with
      | error e => simp only [parseObjectCore, hpl] at hpo; cases hpo
      | ok res =>
        obtain ⟨st, out, iss⟩ := res
        by_cases hex : (extraKeys (createSellerFields.map Prod.fst) r).isEmpty
        · have hpo2 : o = ⟨st, out, iss⟩ := by
            simp only [parseObjectCore, hpl, hex] at hpo
            simp at hpo
            exact hpo.symm
          subst hpo2
          cases st with
          | valid =>
            by_cases hri : createSellerRefine out = []
            · simp [hri] at h
              subst h
              exact ⟨r, iss, rfl, hpl⟩
            · simp [hri] at h
          | dirty => simp at h
          | aborted => simp at h
        · have hpo2 : o = ⟨if st = .aborted then .aborted else .dirty, out,
              iss ++ [⟨[], .unrecognizedKeys, "Unrecognized keys in object"⟩]⟩ := by
            simp only [parseObjectCore, hpl, hex] at hpo
            simp at hpo
            exact hpo.symm
          subst hpo2
          cases st <;> simp at h

/-- A `createNameField` parse can only be valid on a string input, and then
its normalized output is the trimmed string. -/
theorem createNameField_valid_shape (v : Option JValue) (fr : FieldRes)
    (hok : createNameField v = .ok fr) (hst : fr.status = .valid) :
    ∃ s, v = some (.jstr s) ∧ fr.out = some (.jstr (jsTrim s)) := by
  match v with
  | none =>
    have h2 : createNameField none = .ok (zodString [.minLen 1] ["name"] none) := rfl
    rw [h2] at hok
    injection hok with hfr
    rw [← hfr] at hst
    simp [zodString] at hst
  | some .jnull =>
    have h2 : createNameField (some .jnull) = .ok (zodString [.minLen 1] ["name"] none) := rfl
    rw [h2] at hok
    injection hok with hfr
    rw [← hfr] at hst
    simp [zodString] at hst
  | some (.jnum n) => simp [createNameField, optionalChainTrim] at hok
  | some (.jbool b) => simp [createNameField, optionalChainTrim] at hok
  | some (.jobj o) => simp [createNameField, optionalChainTrim] at hok
  | some (.jstr s) =>
    refine ⟨s, rfl, ?_⟩
    have h2 : createNameField (some (.jstr s)) =
        .ok (zodString [.minLen 1] ["name"] (some (.jstr (jsTrim s)))) := rfl
    rw [h2] at hok
    injection hok with hfr
    rw [← hfr]
    simp [zodString]

/-- C3 counterexample: a successful validation whose normalized record
still contains the untrimmed `description` value, refuting the claim that
every string field of the normalized output is trimmed. -/
theorem c3_description_not_trimmed :
    VendorCreateSeller (.jobj [("registration_type", .jstr "individual"),
        ("name", .jstr "Acme"), ("description", .jstr " padded "),
        ("member", .jobj [("name", .jstr "Jo"), ("email", .jstr "jo@example.com")])]) =
      .ok (.success [("registration_type", .jstr "individual"), ("name", .jstr "Acme"),
        ("description", .jstr " padded "),
        ("member", .jobj [("name", .jstr "Jo"), ("email", .jstr "jo@example.com")])]) ∧
    jsTrim " padded " ≠ " padded " :=
  ⟨rfl, by decide⟩

/-- C3 (amended): when `VendorCreateSeller` succeeds the result is success
and the `name` field of the normalized record is trimmed; the other string
fields are passed through unchanged (only `name` has trim preprocessing). -/
theorem VendorCreateSeller_success_name_trimmed (input : JValue) (rec : List (String × JValue))
    (h : VendorCreateSeller input = .ok (.success rec)) :
    ∃ s, getField rec "name" = some (.jstr s) ∧ jsTrim s = s := by
  obtain ⟨r, iss, hin, hpl⟩ := VendorCreateSeller_success_inv input rec h
  obtain ⟨fr, hfr, hgf, hsub, hstv⟩ := parseFieldList_spec createSellerFields
    createSellerFields_nodup r .valid rec iss hpl
    ("name", createNameField) (by simp [createSellerFields])
  obtain ⟨s, hv, hout⟩ := createNameField_valid_shape _ fr hfr (hstv rfl)
  exact ⟨jsTrim s, by rw [hgf, hout], jsTrim_idem s⟩

/-- C3 (amended) witness: instantiation at a concrete successful input. -/
theorem VendorCreateSeller_success_name_trimmed_witness :
    ∃ s, getField [("registration_type", .jstr "individual"), ("name", .jstr "Acme"),
        ("member", .jobj [("name", .jstr "Jo"), ("email", .jstr "jo@example.com")])]
      "name" = some (.jstr s) ∧ jsTrim s = s :=
  VendorCreateSeller_success_name_trimmed
    (.jobj [("registration_type", .jstr "individual"), ("name", .jstr " Acme"),
      ("member", .jobj [("name", .jstr "Jo"), ("email", .jstr "jo@example.com")])])
    _ rfl

/-- A fully valid object stage reduces `VendorCreateSeller` to the
refinement decision. -/
theorem VendorCreateSeller_of_stage (r out : List (String × JValue))
    (hstage : parseObjectCore true [] createSellerFields r = .ok ⟨.valid, out, []⟩) :
    VendorCreateSeller (.jobj r) =
      if createSellerRefine out = [] then .ok (.success out)
      else .ok (.failure (createSellerRefine out)) := by
  by_cases hri : createSellerRefine out = [] <;>
    simp [VendorCreateSeller, hstage, hri]

/-- A valid `parseObjectCore` outcome comes from a valid field-level parse
(the strict unknown-key check found nothing). -/
theorem parseObjectCore_ok_valid_inv (strict : Bool) (path : List String)
    (fields : List (String × (Option JValue → Except String FieldRes)))
    (r out : List (String × JValue)) (iss : List Issue)
    (h : parseObjectCore strict path fields r = .ok ⟨.valid, out, iss⟩) :
    parseFieldList r fields = .ok (.valid, out, iss) := by
  cases hpl : parseFieldList r fields with
  | error e => simp only [parseObjectCore, hpl] at h; cases h
  | ok res =>
    obtain ⟨st, out0, iss0⟩ := res
    simp only [parseObjectCore, hpl] at h
    split at h
    · injection h with h2
      exfalso
      have hst : (if st = .aborted then PStatus.aborted else PStatus.dirty) = .valid := by
        have := congrArg ObjRes.status h2
        simpa using this
      cases hstc : st <;> rw [hstc] at hst <;> simp at hst
    · injection h with h2
      have h3 := congrArg ObjRes.status h2
      have h4 := congrArg ObjRes.value h2
      have h5 := congrArg ObjRes.issues h2
      simp only at h3 h4 h5
      rw [h3, h4, h5]

/-- C4: with `registration_type = "business"` and all three dependent
fields absent from the input, but every declared field otherwise valid and
no unknown keys, the result is a failure carrying exactly the three
conditional issues, in source order, and nothing else — all dependents are
checked even though earlier ones already failed. -/
theorem VendorCreateSeller_business_three_issues (r out : List (String × JValue))
    (hstage : parseObjectCore true [] createSellerFields r = .ok ⟨.valid, out, []⟩)
    (hreg : getField r "registration_type" = some (.jstr "business"))
    (hc : getField r "company_name" = none)
    (hv : getField r "vat_number" = none)
    (ht : getField r "tax_office" = none) :
    VendorCreateSeller (.jobj r) =
      .ok (.failure [companyNameIssue, vatNumberIssue, taxOfficeIssue]) := by
  have hpl := parseObjectCore_ok_valid_inv true [] createSellerFields r out [] hstage
  obtain ⟨fr1, hfr1, hgf1, _, hstv1⟩ := parseFieldList_spec createSellerFields
    createSellerFields_nodup r .valid out [] hpl
    ("registration_type", pureField (zodEnum ["individual", "business"] ["registration_type"]))
    (by simp [createSellerFields])
  obtain ⟨fr2, hfr2, hgf2, _, _⟩ := parseFieldList_spec createSellerFields
    createSellerFields_nodup r .valid out [] hpl
    ("company_name", pureField (optionalNullableString "company_name"))
    (by simp [createSellerFields])
  obtain ⟨fr3, hfr3, hgf3, _, _⟩ := parseFieldList_spec createSellerFields
    createSellerFields_nodup r .valid out [] hpl
    ("vat_number", pureField (optionalNullableString "vat_number"))
    (by simp [createSellerFields])
  obtain ⟨fr4, hfr4, hgf4, _, _⟩ := parseFieldList_spec createSellerFields
    createSellerFields_nodup r .valid out [] hpl
    ("tax_office", pureField (optionalNullableString "tax_office"))
    (by simp [createSellerFields])
  rw [hreg] at hfr1
  rw [hc] at hfr2
  rw [hv] at hfr3
  rw [ht] at hfr4
  have hout1 : getField out "registration_type" = some (.jstr "business") := by
    have hfr' : Except.ok (⟨.valid, some (.jstr "business"), []⟩ : FieldRes) = .ok fr1 := hfr1
    injection hfr' with h2
    have hgf' : getField out "registration_type" = fr1.out := hgf1
    rw [hgf', ← h2]
  have hout2 : getField out "company_name" = none := by
    have hfr' : Except.ok (⟨.valid, none, []⟩ : FieldRes) = .ok fr2 := hfr2
    injection hfr' with h2
    have hgf' : getField out "company_name" = fr2.out := hgf2
    rw [hgf', ← h2]
  have hout3 : getField out "vat_number" = none := by
    have hfr' : Except.ok (⟨.valid, none, []⟩ : FieldRes) = .ok fr3 := hfr3
    injection hfr' with h2
    have hgf' : getField out "vat_number" = fr3.out := hgf3
    rw [hgf', ← h2]
  have hout4 : getField out "tax_office" = none := by
    have hfr' : Except.ok (⟨.valid, none, []⟩ : FieldRes) = .ok fr4 := hfr4
    injection hfr' with h2
    have hgf' : getField out "tax_office" = fr4.out := hgf4
    rw [hgf', ← h2]
  have hri : createSellerRefine out = [companyNameIssue, vatNumberIssue, taxOfficeIssue] := by
    simp [createSellerRefine, isBusinessReg, hout1, hout2, hout3, hout4, jsTruthy]
  rw [VendorCreateSeller_of_stage r out hstage, hri]
  simp

/-- C4 witness: the concrete business registration missing all three
dependent fields. -/
theorem VendorCreateSeller_business_three_issues_witness :
    VendorCreateSeller (.jobj [("registration_type", .jstr "business"),
        ("name", .jstr "Acme"),
        ("member", .jobj [("name", .jstr "Jo"), ("email", .jstr "jo@example.com")])]) =
      .ok (.failure [companyNameIssue, vatNumberIssue, taxOfficeIssue]) :=
  VendorCreateSeller_business_three_issues
    [("registration_type", .jstr "business"), ("name", .jstr "Acme"),
      ("member", .jobj [("name", .jstr "Jo"), ("email", .jstr "jo@example.com")])]
    [("registration_type", .jstr "business"), ("name", .jstr "Acme"),
      ("member", .jobj [("name", .jstr "Jo"), ("email", .jstr "jo@example.com")])]
    rfl rfl rfl rfl rfl

/-- C5: under business registration, an empty-string or `null` value of a
dependent field is treated like an absent one: the validator fails and the
issue list carries the conditional issue at that field, whose message names
the field and ties the requirement to business registration. -/
theorem VendorCreateSeller_empty_null_dependents (r out : List (String × JValue))
    (f msg : String)
    (hstage : parseObjectCore true [] createSellerFields r = .ok ⟨.valid, out, []⟩)
    (hreg : getField out "registration_type" = some (.jstr "business"))
    (hf : (f, msg) ∈ [("company_name", "Company name is required for business registration"),
        ("vat_number", "VAT number is required for business registration"),
        ("tax_office", "Tax office is required for business registration")])
    (hval : getField out f = some (.jstr "") ∨ getField out f = some .jnull) :
    ∃ issues, VendorCreateSeller (.jobj r) = .ok (.failure issues) ∧
      (⟨[f], .custom, msg⟩ : Issue) ∈ issues := by
  have hbus : isBusinessReg out = true := by simp [isBusinessReg, hreg]
  have hft : jsTruthy (getField out f) = false := by
    rcases hval with hval | hval <;> simp [jsTruthy, hval]
  have hmem : (⟨[f], .custom, msg⟩ : Issue) ∈ createSellerRefine out := by
    fin_cases hf
    · simp [createSellerRefine, hbus, hft, companyNameIssue]
    · simp [createSellerRefine, hbus, hft, vatNumberIssue]
    · simp [createSellerRefine, hbus, hft, taxOfficeIssue]
  have hne : createSellerRefine out ≠ [] := by
    intro hcon
    rw [hcon] at hmem
    simp at hmem
  refine ⟨createSellerRefine out, ?_, hmem⟩
  rw [VendorCreateSeller_of_stage r out hstage, if_neg hne]

/-- C5 witness: business registration with `company_name` given as the
empty string. -/
theorem VendorCreateSeller_empty_null_dependents_witness :
    ∃ issues, VendorCreateSeller (.jobj [("registration_type", .jstr "business"),
        ("name", .jstr "Acme"), ("company_name", .jstr ""),
        ("vat_number", .jstr "123"), ("tax_office", .jstr "HQ"),
        ("member", .jobj [("name", .jstr "Jo"), ("email", .jstr "jo@example.com")])]) =
      .ok (.failure issues) ∧
      (⟨["company_name"], .custom,
        "Company name is required for business registration"⟩ : Issue) ∈ issues :=
  VendorCreateSeller_empty_null_dependents
    [("registration_type", .jstr "business"), ("name", .jstr "Acme"),
      ("company_name", .jstr ""), ("vat_number", .jstr "123"), ("tax_office", .jstr "HQ"),
      ("member", .jobj [("name", .jstr "Jo"), ("email", .jstr "jo@example.com")])]
    [("registration_type", .jstr "business"), ("name", .jstr "Acme"),
      ("company_name", .jstr ""), ("vat_number", .jstr "123"), ("tax_office", .jstr "HQ"),
      ("member", .jobj [("name", .jstr "Jo"), ("email", .jstr "jo@example.com")])]
    "company_name" "Company name is required for business registration"
    rfl rfl (by simp) (.inl rfl)

/-- The nested member schema never raises. -/
theorem memberField_total (v : Option JValue) :
    ∃ fr, zodObject false ["member"] memberFields v = .ok fr := by
  match v with
  | none => exact ⟨_, rfl⟩
  | some .jnull => exact ⟨_, rfl⟩
  | some (.jstr s) => exact ⟨_, rfl⟩
  | some (.jnum n) => exact ⟨_, rfl⟩
  | some (.jbool b) => exact ⟨_, rfl⟩
  | some (.jobj m) => exact ⟨_, rfl⟩

/-- Field passes whose parsers all return a result return a result. -/
theorem parseFieldList_total
    (fields : List (String × (Option JValue → Except String FieldRes))) :
    ∀ (r : List (String × JValue)),
      (∀ kp ∈ fields, ∃ fr, kp.2 (getField r kp.1) = .ok fr) →
      ∃ res, parseFieldList r fields = .ok res := by
  induction fields with
  | nil => intro r _; exact ⟨_, rfl⟩
  | cons kp0 rest ih =>
    obtain ⟨k0, p0⟩ := kp0
    intro r h
    obtain ⟨fr0, h0⟩ := h (k0, p0) (List.mem_cons_self _ _)
    obtain ⟨⟨st, out, iss⟩, h1⟩ := ih r (fun kp hkp => h kp (List.mem_cons_of_mem _ hkp))
    have h0' : p0 (getField r k0) = .ok fr0 := h0
    exact ⟨(fr0.status.combine st,
        (match fr0.out with | some v => [(k0, v)] | none => []) ++ out,
        fr0.issues ++ iss), by simp only [parseFieldList, h0', h1]⟩

/-- The create-seller field pass never raises once `name` holds a string
(every other field schema is exception-free). -/
theorem parseFieldList_createSellerFields_total (r : List (String × JValue)) (s : String)
    (hname : getField r "name" = some (.jstr s)) :
    ∃ res, parseFieldList r createSellerFields = .ok res := by
  apply parseFieldList_total
  intro kp hkp
  fin_cases hkp
  · exact ⟨_, rfl⟩
  · show ∃ fr, createNameField (getField r "name") = .ok fr
    rw [hname]
    exact ⟨_, rfl⟩
  · exact ⟨_, rfl⟩
  · exact ⟨_, rfl⟩
  · exact ⟨_, rfl⟩
  · exact ⟨_, rfl⟩
  · exact ⟨_, rfl⟩
  · exact ⟨_, rfl⟩
  · exact ⟨_, rfl⟩
  · exact ⟨_, rfl⟩
  · exact ⟨_, rfl⟩
  · exact ⟨_, rfl⟩
  · exact ⟨_, rfl⟩
  · exact ⟨_, rfl⟩
  · exact ⟨_, rfl⟩
  · exact memberField_total _

/-- The update-seller field pass never raises once `name` holds a string. -/
theorem parseFieldList_updateSellerFields_total (r : List (String × JValue)) (s : String)
    (hname : getField r "name" = some (.jstr s)) :
    ∃ res, parseFieldList r updateSellerFields = .ok res := by
  apply parseFieldList_total
  intro kp hkp
  fin_cases hkp
  · exact ⟨_, rfl⟩
  · show ∃ fr, updateNameField (getField r "name") = .ok fr
    rw [hname]
    exact ⟨_, rfl⟩
  · exact ⟨_, rfl⟩
  · exact ⟨_, rfl⟩
  · exact ⟨_, rfl⟩
  · exact ⟨_, rfl⟩
  · exact ⟨_, rfl⟩
  · exact ⟨_, rfl⟩
  · exact ⟨_, rfl⟩
  · exact ⟨_, rfl⟩
  · exact ⟨_, rfl⟩
  · exact ⟨_, rfl⟩
  · exact ⟨_, rfl⟩
  · exact ⟨_, rfl⟩
  · exact ⟨_, rfl⟩

/-- A non-valid field pass makes `VendorCreateSeller` fail, keeping every
field issue in the reported list. -/
theorem VendorCreateSeller_failure_of_field_issue (r : List (String × JValue))
    (st : PStatus) (out : List (String × JValue)) (iss : List Issue)
    (hpl : parseFieldList r createSellerFields = .ok (st, out, iss))
    (hst : st ≠ .valid) (i : Issue) (hi : i ∈ iss) :
    ∃ issues, VendorCreateSeller (.jobj r) = .ok (.failure issues) ∧ i ∈ issues := by
  by_cases hex : (extraKeys (createSellerFields.map Prod.fst) r).isEmpty
  · cases st with
    | valid => exact absurd rfl hst
    | aborted =>
      refine ⟨iss, ?_, hi⟩
      simp [VendorCreateSeller, parseObjectCore, hpl, hex]
    | dirty =>
      refine ⟨iss ++ createSellerRefine out, ?_, by simp [hi]⟩
      simp [VendorCreateSeller, parseObjectCore, hpl, hex]
  · cases st with
    | aborted =>
      refine ⟨iss ++ [⟨[], .unrecognizedKeys, "Unrecognized keys in object"⟩], ?_, by simp [hi]⟩
      simp [VendorCreateSeller, parseObjectCore, hpl, hex]
    | valid =>
      refine ⟨(iss ++ [⟨[], .unrecognizedKeys, "Unrecognized keys in object"⟩]) ++
        createSellerRefine out, ?_, by simp [hi]⟩
      simp [VendorCreateSeller, parseObjectCore, hpl, hex]
    | dirty =>
      refine ⟨(iss ++ [⟨[], .unrecognizedKeys, "Unrecognized keys in object"⟩]) ++
        createSellerRefine out, ?_, by simp [hi]⟩
      simp [VendorCreateSeller, parseObjectCore, hpl, hex]

/-- A non-valid field pass makes `VendorUpdateSeller` fail, keeping every
field issue in the reported list. -/
theorem VendorUpdateSeller_failure_of_field_issue (r : List (String × JValue))
    (st : PStatus) (out : List (String × JValue)) (iss : List Issue)
    (hpl : parseFieldList r updateSellerFields = .ok (st, out, iss))
    (hst : st ≠ .valid) (i : Issue) (hi : i ∈ iss) :
    ∃ issues, VendorUpdateSeller (.jobj r) = .ok (.failure issues) ∧ i ∈ issues := by
  by_cases hex : (extraKeys (updateSellerFields.map Prod.fst) r).isEmpty
  · cases st with
    | valid => exact absurd rfl hst
    | aborted =>
      refine ⟨iss, ?_, hi⟩
      simp [VendorUpdateSeller, parseObjectCore, hpl, hex]
    | dirty =>
      refine ⟨iss, ?_, hi⟩
      simp [VendorUpdateSeller, parseObjectCore, hpl, hex]
  · cases st with
    | aborted =>
      refine ⟨iss ++ [⟨[], .unrecognizedKeys, "Unrecognized keys in object"⟩], ?_, by simp [hi]⟩
      simp [VendorUpdateSeller, parseObjectCore, hpl, hex]
    | valid =>
      refine ⟨iss ++ [⟨[], .unrecognizedKeys, "Unrecognized keys in object"⟩], ?_, by simp [hi]⟩
      simp [VendorUpdateSeller, parseObjectCore, hpl, hex]
    | dirty =>
      refine ⟨iss ++ [⟨[], .unrecognizedKeys, "Unrecognized keys in object"⟩], ?_, by simp [hi]⟩
      simp [VendorUpdateSeller, parseObjectCore, hpl, hex]

theorem updateSellerFields_nodup : (updateSellerFields.map Prod.fst).Nodup := by decide

/-- C6: trimming precedes length validation of `name`.  A create-seller
`name` that is a nonempty all-whitespace string trims to length 0 < 1 and
fails with a length issue at `name`; an update-seller `name` whose trimmed
form is shorter than 4 fails with the corresponding length issue. -/
theorem name_trim_before_length (r : List (String × JValue)) (s : String) :
    (getField r "name" = some (.jstr s) → s.data ≠ [] →
      (∀ c ∈ s.data, isJsWS c = true) →
      ∃ issues, VendorCreateSeller (.jobj r) = .ok (.failure issues) ∧
        (⟨["name"], .tooSmall, "String must contain at least 1 character(s)"⟩ : Issue) ∈ issues) ∧
    (getField r "name" = some (.jstr s) → (jsTrim s).length < 4 →
      ∃ issues, VendorUpdateSeller (.jobj r) = .ok (.failure issues) ∧
        (⟨["name"], .tooSmall, "String must contain at least 4 character(s)"⟩ : Issue) ∈ issues) := by
  constructor
  · intro hname hne hws
    have htrim : jsTrim s = "" := jsTrim_eq_empty hws
    obtain ⟨res, hpl⟩ := parseFieldList_createSellerFields_total r s hname
    obtain ⟨st, out, iss⟩ := res
    obtain ⟨fr, hfr, hgf, hsub, hstv⟩ := parseFieldList_spec createSellerFields
      createSellerFields_nodup r st out iss hpl ("name", createNameField)
      (by simp [createSellerFields])
    have hfr' : createNameField (getField r "name") = .ok fr := hfr
    rw [hname] at hfr'
    have hcnf : createNameField (some (.jstr s)) =
        .ok (zodString [.minLen 1] ["name"] (some (.jstr (jsTrim s)))) := rfl
    rw [hcnf, htrim] at hfr'
    have hval : Except.ok (⟨.dirty, some (.jstr ""),
        [⟨["name"], .tooSmall, "String must contain at least 1 character(s)"⟩]⟩ : FieldRes) =
        .ok fr := hfr'
    injection hval with hval
    have hi : (⟨["name"], .tooSmall,
        "String must contain at least 1 character(s)"⟩ : Issue) ∈ iss := by
      apply hsub
      rw [← hval]
      simp
    have hstne : st ≠ .valid := by
      intro hcon
      have h5 := hstv hcon
      rw [← hval] at h5
      simp at h5
    exact VendorCreateSeller_failure_of_field_issue r st out iss hpl hstne _ hi
  · intro hname hlen
    obtain ⟨res, hpl⟩ := parseFieldList_updateSellerFields_total r s hname
    obtain ⟨st, out, iss⟩ := res
    obtain ⟨fr, hfr, hgf, hsub, hstv⟩ := parseFieldList_spec updateSellerFields
      updateSellerFields_nodup r st out iss hpl ("name", updateNameField)
      (by simp [updateSellerFields])
    have hfr' : updateNameField (getField r "name") = .ok fr := hfr
    rw [hname] at hfr'
    have hunf : updateNameField (some (.jstr s)) =
        .ok (zodString [.minLen 4] ["name"] (some (.jstr (jsTrim s)))) := rfl
    rw [hunf] at hfr'
    injection hfr' with hval
    have hfr2 : fr = ⟨.dirty, some (.jstr (jsTrim s)),
        [⟨["name"], .tooSmall, "String must contain at least 4 character(s)"⟩]⟩ := by
      rw [← hval]
      have hmsg : "String must contain at least " ++ toString 4 ++ " character(s)" =
          "String must contain at least 4 character(s)" := rfl
      simp [zodString, runStrCheck, hlen, hmsg]
    have hi : (⟨["name"], .tooSmall,
        "String must contain at least 4 character(s)"⟩ : Issue) ∈ iss := by
      apply hsub
      rw [hfr2]
      simp
    have hstne : st ≠ .valid := by
      intro hcon
      have h5 := hstv hcon
      rw [hfr2] at h5
      simp at h5
    exact VendorUpdateSeller_failure_of_field_issue r st out iss hpl hstne _ hi

/-- C6 witness: whitespace-only create `name`, and an update `name` that
trims below 4 characters. -/
theorem name_trim_before_length_witness :
    (∃ issues, VendorCreateSeller (.jobj [("name", .jstr "   ")]) = .ok (.failure issues) ∧
      (⟨["name"], .tooSmall, "String must contain at least 1 character(s)"⟩ : Issue) ∈ issues) ∧
    (∃ issues, VendorUpdateSeller (.jobj [("name", .jstr " ab ")]) = .ok (.failure issues) ∧
      (⟨["name"], .tooSmall, "String must contain at least 4 character(s)"⟩ : Issue) ∈ issues) :=
  ⟨(name_trim_before_length [("name", .jstr "   ")] "   ").1 rfl (by decide) (by decide),
   (name_trim_before_length [("name", .jstr " ab ")] " ab ").2 rfl (by decide)⟩

/-- C7: the `maxLength` bound on `seller_note` is inclusive — exactly 300
characters succeed, 301 characters fail with a length issue at
`seller_note`. -/
theorem VendorUpdateReview_maxLength_boundary (s : String) :
    (s.length = 300 →
      VendorUpdateReview (.jobj [("seller_note", .jstr s)]) =
        .ok (.success [("seller_note", .jstr s)])) ∧
    (s.length = 301 →
      VendorUpdateReview (.jobj [("seller_note", .jstr s)]) =
        .ok (.failure [⟨["seller_note"], .tooBig,
          "String must contain at most 300 character(s)"⟩])) := by
  have hmsg : "String must contain at most " ++ toString 300 ++ " character(s)" =
      "String must contain at most 300 character(s)" := rfl
  constructor
  · intro h
    have hgt : ¬ (s.length > 300) := by omega
    simp [VendorUpdateReview, parseObjectCore, parseFieldList, updateReviewFields,
      pureField, getField, zodString, runStrCheck, hgt, PStatus.combine]
  · intro h
    have hgt : s.length > 300 := by omega
    simp [VendorUpdateReview, parseObjectCore, parseFieldList, updateReviewFields,
      pureField, getField, zodString, runStrCheck, hgt, hmsg, PStatus.combine]

set_option maxRecDepth 4000 in
/-- C7 witness: concrete notes of 300 and 301 characters. -/
theorem VendorUpdateReview_maxLength_boundary_witness :
    ((String.mk (List.replicate 300 'a')).length = 300 ∧
      VendorUpdateReview (.jobj [("seller_note", .jstr (String.mk (List.replicate 300 'a')))]) =
        .ok (.success [("seller_note", .jstr (String.mk (List.replicate 300 'a')))])) ∧
    ((String.mk (List.replicate 301 'a')).length = 301 ∧
      VendorUpdateReview (.jobj [("seller_note", .jstr (String.mk (List.replicate 301 'a')))]) =
        .ok (.failure [⟨["seller_note"], .tooBig,
          "String must contain at most 300 character(s)"⟩])) :=
  ⟨⟨by decide, (VendorUpdateReview_maxLength_boundary _).1 (by decide)⟩,
   ⟨by decide, (VendorUpdateReview_maxLength_boundary _).2 (by decide)⟩⟩

/-- C9: unlike the strict `VendorCreateSeller` and `VendorUpdateSeller`
schemas (which reject an undeclared key with an `unrecognized_keys`
issue), `VendorUpdateReview` is not strict — with any valid `seller_note`
and any undeclared extra keys, validation succeeds and the extra keys are
silently stripped from the normalized record. -/
theorem VendorUpdateReview_not_strict (s : String) (extras : List (String × JValue))
    (h : s.length ≤ 300) :
    (VendorUpdateReview (.jobj (("seller_note", .jstr s) :: extras)) =
      .ok (.success [("seller_note", .jstr s)])) ∧
    (VendorCreateSeller (.jobj [("registration_type", .jstr "individual"),
        ("name", .jstr "Acme"), ("extra_key", .jnum 1),
        ("member", .jobj [("name", .jstr "Jo"), ("email", .jstr "jo@example.com")])]) =
      .ok (.failure [⟨[], .unrecognizedKeys, "Unrecognized keys in object"⟩])) ∧
    (VendorUpdateSeller (.jobj [("description", .jstr "d"), ("extra_key", .jnum 1)]) =
      .ok (.failure [⟨[], .unrecognizedKeys, "Unrecognized keys in object"⟩])) := by
  have hgt : ¬ (s.length > 300) := by omega
  refine ⟨?_, rfl, rfl⟩
  simp [VendorUpdateReview, parseObjectCore, parseFieldList, updateReviewFields,
    pureField, getField, zodString, runStrCheck, hgt, PStatus.combine]

/-- C9 witness: a valid note together with an undeclared key. -/
theorem VendorUpdateReview_not_strict_witness :
    VendorUpdateReview (.jobj [("seller_note", .jstr "fine"), ("extra_key", .jnum 1)]) =
      .ok (.success [("seller_note", .jstr "fine")]) :=
  (VendorUpdateReview_not_strict "fine" [("extra_key", .jnum 1)] (by decide)).1

/-- C2 counterexample: the claim as stated is false for type-level
unrelated failures.  With business registration, the rule fields passing,
`company_name` absent and `member.email` the number 42 — an unrelated
field failing per-field validation — the object parse aborts, the
`superRefine` is skipped, and the returned issue list holds only the
`member.email` type issue, not the `company_name` conditional issue. -/
theorem c2_abort_skips_conditional :
    VendorCreateSeller (.jobj
      [("registration_type", .jstr "business"), ("name", .jstr "Acme"),
       ("vat_number", .jstr "123"), ("tax_office", .jstr "HQ"),
       ("member", .jobj [("name", .jstr "Jo"), ("email", .jnum 42)])]) =
      .ok (.failure [⟨["member", "email"], .invalidType, "Expected string"⟩]) ∧
    companyNameIssue ∉ [(⟨["member", "email"], .invalidType, "Expected string"⟩ : Issue)] :=
  ⟨rfl, by decide⟩

/-- C2 (amended): a check-level (dirty) failure in an unrelated field
(e.g. an invalid `member.email` format) does not stop the conditional
rule.  For any input whose field pass is `dirty` (no type-level abort,
which would skip the refinement) with some issue `i`, no unknown keys, and
whose normalized record has business registration with `company_name` not
provided, the result is one merged failure list containing both `i` and
the `company_name` conditional issue. -/
theorem VendorCreateSeller_merges_field_and_conditional_issues
    (r : List (String × JValue)) (st : PStatus) (out : List (String × JValue))
    (iss : List Issue) (i : Issue)
    (hpl : parseFieldList r createSellerFields = .ok (st, out, iss))
    (hex : (extraKeys (createSellerFields.map Prod.fst) r).isEmpty)
    (hst : st = .dirty)
    (hreg : getField out "registration_type" = some (.jstr "business"))
    (hc : jsTruthy (getField out "company_name") = false)
    (hi : i ∈ iss) :
    ∃ issues, VendorCreateSeller (.jobj r) = .ok (.failure issues) ∧
      i ∈ issues ∧ companyNameIssue ∈ issues := by
  subst hst
  have hbus : isBusinessReg out = true := by simp [isBusinessReg, hreg]
  have hmem : companyNameIssue ∈ createSellerRefine out := by
    simp [createSellerRefine, hbus, hc]
  refine ⟨iss ++ createSellerRefine out, ?_, by simp [hi], by simp [hmem]⟩
  simp [VendorCreateSeller, parseObjectCore, hpl, hex]

/-- C2 witness: a concrete business input whose only field failure is the
non-email `member.email`, with `company_name` absent. -/
theorem VendorCreateSeller_merges_issues_witness :
    ∃ issues, VendorCreateSeller (.jobj
      [("registration_type", .jstr "business"), ("name", .jstr "Acme"),
       ("vat_number", .jstr "123"), ("tax_office", .jstr "HQ"),
       ("member", .jobj [("name", .jstr "Jo"), ("email", .jstr "not-an-email")])]) =
      .ok (.failure issues) ∧
      (⟨["member", "email"], .invalidString, "Invalid email"⟩ : Issue) ∈ issues ∧
      companyNameIssue ∈ issues :=
  VendorCreateSeller_merges_field_and_conditional_issues
    [("registration_type", .jstr "business"), ("name", .jstr "Acme"),
     ("vat_number", .jstr "123"), ("tax_office", .jstr "HQ"),
     ("member", .jobj [("name", .jstr "Jo"), ("email", .jstr "not-an-email")])]
    .dirty
    [("registration_type", .jstr "business"), ("name", .jstr "Acme"),
     ("vat_number", .jstr "123"), ("tax_office", .jstr "HQ"),
     ("member", .jobj [("name", .jstr "Jo"), ("email", .jstr "not-an-email")])]
    [⟨["member", "email"], .invalidString, "Invalid email"⟩]
    ⟨["member", "email"], .invalidString, "Invalid email"⟩
    rfl rfl rfl rfl rfl (by simp)

/-- C10: null acceptance diverges between create and update.  Each of the
ten listed fields accepts a present `null` in `VendorCreateSeller`
(nullish) but rejects it with an `invalid_type` issue in
`VendorUpdateSeller` (optional only); and within the update schema exactly
`company_name`, `vat_number` and `tax_office` accept `null`. -/
theorem null_acceptance_create_vs_update :
    (∀ f ∈ ["description", "photo", "email", "phone", "address_line", "city",
        "state", "postal_code", "country_code", "tax_id"],
      (∃ p, schemaField createSellerFields f = some p ∧ acceptsNull p) ∧
      (∃ q, schemaField updateSellerFields f = some q ∧
        q (some .jnull) = .ok ⟨.aborted, some .jnull,
          [⟨[f], .invalidType, "Expected string"⟩]⟩)) ∧
    (∀ kp ∈ updateSellerFields,
      acceptsNull kp.2 ↔ kp.1 ∈ ["company_name", "vat_number", "tax_office"]) := by
  constructor
  · intro f hf
    fin_cases hf <;> exact ⟨⟨_, rfl, rfl⟩, ⟨_, rfl, rfl⟩⟩
  · intro kp hkp
    fin_cases hkp <;>
      simp [acceptsNull, pureField, zodOptional, zodNullable, zodEnum, zodString,
        optionalString, optionalNullableString, updateNameField, plainTrim]

/-- C10 witness: the `description` field at a present `null`. -/
theorem null_acceptance_create_vs_update_witness :
    (∃ p, schemaField createSellerFields "description" = some p ∧ acceptsNull p) ∧
    (∃ q, schemaField updateSellerFields "description" = some q ∧
      q (some .jnull) = .ok ⟨.aborted, some .jnull,
        [⟨["description"], .invalidType, "Expected string"⟩]⟩) :=
  null_acceptance_create_vs_update.1 "description" (by simp)

end Refashion
